import Mathlib

/-!
Verification development for the DiskSizer scanning engine
(`Utils/scan.go`, `app/app.go`, and the `cache` package `CachedScanDir`).

Modelling conventions:
* Go `int64` byte sizes are modelled as `Int`.  All sums in the claims are
  far below `2^63`, so wrap-around is irrelevant to every property here and
  is not modelled.
* Each OS interaction (`os.Lstat`, `os.ReadDir`) is a point where the
  environment answers.  Two layers are used:
  - the *response layer*: each scanner (`scanDirSequential`,
    `scanDirParallel`, `scanSmallFileDir`) is a pure function of the list
    of per-child environment responses (`Child` records the listing entry,
    the parent-level `Lstat` answer and the recursive `ScanDir` answer);
  - the *filesystem layer*: a deterministic filesystem tree `FsNode`
    (with per-node stat/list failure flags) from which `ScanDir` derives
    all responses; this collapses the concurrency, which only affects the
    order in which results reach the collection channel, an order that is
    erased by the final descending sort and by the commutative sums.
* Goroutine scheduling, channels and the worker pool affect timing only;
  the collection loops are folds over the queued results in queue order.
-/

namespace DiskSizer

/-- Result of a successful non-following stat (`os.Lstat`): the fields of
`os.FileInfo` the scanner consults. -/
structure FileInfo where
  size : Int
  isDir : Bool
  isSymlink : Bool

/-- `Utils.DirEntry`: a node of the result tree. -/
structure DirEntry where
  path : String
  name : String
  size : Int
  children : List DirEntry

/-- Sum of the `size` fields of a list of entries. -/
def sumSizes (l : List DirEntry) : Int :=
  (l.map (fun e => e.size)).sum

/-- The comparison used by every scanner's final
`sort.Slice(children, func(i, j) { children[i].Size > children[j].Size })`:
`a` may precede `b` when `a.size ≥ b.size`. -/
def sizeGe (a b : DirEntry) : Prop :=
  b.size ≤ a.size

instance : DecidableRel sizeGe :=
  fun a b => inferInstanceAs (Decidable (b.size ≤ a.size))

instance : IsTotal DirEntry sizeGe :=
  ⟨fun a b => le_total b.size a.size⟩

instance : IsTrans DirEntry sizeGe :=
  ⟨fun _ _ _ h1 h2 => le_trans h2 h1⟩

/-- The descending-by-size sort every scanner applies to its children.
Go's `sort.Slice` is unstable, so the order among equal sizes is
unspecified; any sort for `sizeGe` is a faithful refinement. -/
def sortBySizeDesc (l : List DirEntry) : List DirEntry :=
  List.insertionSort sizeGe l

theorem sortBySizeDesc_sumSizes (l : List DirEntry) :
    sumSizes (sortBySizeDesc l) = sumSizes l := by
  unfold sumSizes sortBySizeDesc
  exact ((List.perm_insertionSort sizeGe l).map _).sum_eq

theorem mem_sortBySizeDesc {l : List DirEntry} {x : DirEntry} :
    x ∈ sortBySizeDesc l ↔ x ∈ l :=
  (List.perm_insertionSort sizeGe l).mem_iff

theorem sorted_sortBySizeDesc (l : List DirEntry) :
    List.Sorted sizeGe (sortBySizeDesc l) :=
  List.sorted_insertionSort sizeGe l

/-- The outcome of one `ScanDir` call: the Go triple
`(DirEntry, skipped int64, err error)` plus the total the call added to the
atomic `processedSize` counter.  Only whether `err` is `nil` matters, hence
`isErr : Bool`. -/
structure ScanRes where
  entry : DirEntry
  skipped : Int
  isErr : Bool
  processed : Int

/-- The environment responses concerning one listed child of a directory:
its name, the `IsDir` bit of its `os.DirEntry` listing record, the answer
of the parent-level `os.Lstat(fullPath)`, and the answer of the recursive
`ScanDir(fullPath, …)` call (meaningful only where the code performs that
call). -/
structure Child where
  name : String
  isDirEnt : Bool
  lstatRes : Option FileInfo
  res : ScanRes

/-- Accumulator shared by the collection loops: children so far, size
total, skipped total, processed-counter total. -/
structure FoldAcc where
  children : List DirEntry
  total : Int
  skipped : Int
  processed : Int

/-- `filepath.Base`, for the paths this development uses (no trailing
slashes, `/`-separated). -/
def base (path : String) : String :=
  match ((path.splitOn "/").filter (fun c => c ≠ "")).getLast? with
  | some c => c
  | none => if path = "" then "." else "/"

/-- `filepath.Join(dir, name)` for the simple shapes used here. -/
def joinPath (dir name : String) : String :=
  dir ++ "/" ++ name

/-- The loop body of `scanDirSequential` (scan.go:269-288), written as a
recursion over the entry list; the Go loop accumulates the same children
list (in listing order), and the same three sums, left to right.
Per child: a failed `Lstat` charges a flat 1024 to `skipped`; a symlink is
skipped outright; a child whose recursive `ScanDir` errs charges the
child's stat size to `skipped`; otherwise the child entry is appended and
the totals accumulate. -/
def seqFold : List Child → FoldAcc
  | [] => ⟨[], 0, 0, 0⟩
  | it :: rest =>
    let r := seqFold rest
    match it.lstatRes with
    | none => ⟨r.children, r.total, 1024 + r.skipped, r.processed⟩
    | some info =>
      if info.isSymlink then r
      else if it.res.isErr then
        ⟨r.children, r.total, info.size + r.skipped, it.res.processed + r.processed⟩
      else
        ⟨it.res.entry :: r.children, it.res.entry.size + r.total,
          it.res.skipped + r.skipped, it.res.processed + r.processed⟩

/-- `scanDirSequential` (scan.go:262-297): fold over the listed children,
then sort the children descending by size and set `size` to their sum.
Always returns a `nil` error. -/
def seqScan (path : String) (items : List Child) : ScanRes :=
  let r := seqFold items
  ⟨⟨path, base path, r.total, sortBySizeDesc r.children⟩, r.skipped, false, r.processed⟩

/-- Whether `scanDirParallel` enqueues a child (scan.go:356-361/372-377):
only children whose parent-level `Lstat` succeeds and is not a symlink. -/
def enqueueOK (it : Child) : Bool :=
  match it.lstatRes with
  | none => false
  | some info => !info.isSymlink

/-- The work queue of `scanDirParallel`: regular files first, then
directories (by the listing's `IsDir` bit), each gated by `enqueueOK`. -/
def parQueue (items : List Child) : List Child :=
  ((items.filter (fun it => !it.isDirEnt)).filter enqueueOK)
    ++ ((items.filter (fun it => it.isDirEnt)).filter enqueueOK)

/-- The result-collection loop of `scanDirParallel` (scan.go:400-408) and
of the directory results in `scanSmallFileDir` (scan.go:239-249): a result
carrying an error contributes `0` to both totals; otherwise the entry is
appended and the totals accumulate.  Modelled in queue order; any channel
arrival order yields the same sums and the same sorted children. -/
def collectFold : List Child → FoldAcc
  | [] => ⟨[], 0, 0, 0⟩
  | it :: rest =>
    let r := collectFold rest
    if it.res.isErr then ⟨r.children, r.total, 0 + r.skipped, it.res.processed + r.processed⟩
    else
      ⟨it.res.entry :: r.children, it.res.entry.size + r.total,
        it.res.skipped + r.skipped, it.res.processed + r.processed⟩

/-- `scanDirParallel` (scan.go:300-418): fewer than 5 entries fall back to
the sequential scan; otherwise enqueue files then directories, collect all
worker results, sort descending, and return with a `nil` error. -/
def parScan (path : String) (items : List Child) : ScanRes :=
  if items.length < 5 then seqScan path items
  else
    let r := collectFold (parQueue items)
    ⟨⟨path, base path, r.total, sortBySizeDesc r.children⟩, r.skipped, false, r.processed⟩

/-- `BatchSize = 200` (scan.go:41). -/
def BatchSize : Nat := 200

/-- `IsSmallFileThreshold = 32 * 1024` (scan.go:44). -/
def IsSmallFileThreshold : Int := 32 * 1024

/-- The batch grouping of `scanSmallFileDir` (scan.go:143-155): consecutive
groups of `BatchSize` files, last group possibly shorter. -/
def toBatches : List Child → List (List Child)
  | [] => []
  | it :: rest =>
    (it :: rest).take BatchSize :: toBatches ((it :: rest).drop BatchSize)
termination_by l => l.length
decreasing_by
  simp only [List.length_drop, List.length_cons, BatchSize]
  omega

/-- One batch worker (scan.go:168-188): stat each file of the batch; a
failed `Lstat` or a symlink is dropped silently; otherwise the file size
joins the batch subtotal and the processed counter, and a leaf entry is
recorded.  Returns (entries, batch subtotal, processed delta). -/
def batchOne (path : String) : List Child → List DirEntry × Int × Int
  | [] => ([], 0, 0)
  | it :: rest =>
    let r := batchOne path rest
    match it.lstatRes with
    | none => r
    | some info =>
      if info.isSymlink then r
      else
        (⟨joinPath path it.name, it.name, info.size, []⟩ :: r.1,
          info.size + r.2.1, info.size + r.2.2)

/-- Merging the per-batch results into the shared accumulator
(scan.go:190-194): entries concatenate, subtotals add, once per batch. -/
def batchAll (path : String) : List (List Child) → List DirEntry × Int × Int
  | [] => ([], 0, 0)
  | b :: rest =>
    let rb := batchOne path b
    let rr := batchAll path rest
    (rb.1 ++ rr.1, rb.2.1 + rr.2.1, rb.2.2 + rr.2.2)

/-- `scanSmallFileDir` (scan.go:115-258): split the listing into regular
files and directories; process the files in batches of `BatchSize`
(symlinks and stat failures dropped silently, no `skipped` charge);
scan each non-symlink, stat-successful directory through the recursive
`ScanDir` and collect those results as in the parallel scanner; merge,
sort descending, `nil` error. -/
def batchScan (path : String) (items : List Child) : ScanRes :=
  let files := items.filter (fun it => !it.isDirEnt)
  let dirs := items.filter (fun it => it.isDirEnt)
  let fb := batchAll path (toBatches files)
  let r := collectFold (dirs.filter enqueueOK)
  ⟨⟨path, base path, fb.2.1 + r.total, sortBySizeDesc (fb.1 ++ r.children)⟩,
    r.skipped, false, fb.2.2 + r.processed⟩

/-! ## The deterministic filesystem layer -/

/-- A filesystem node.  `statFails` makes `os.Lstat` of the node fail;
`listFails` makes `os.ReadDir` of a directory fail; `statSize` is the
size `os.Lstat` reports for the directory inode itself.  A symlink is a
terminal node: the scanner never follows one, so its target needs no
representation (this is exactly how the code avoids symlink cycles). -/
inductive FsNode where
  | file (size : Int) (statFails : Bool)
  | symlink (size : Int)
  | dir (statSize : Int) (statFails : Bool) (listFails : Bool)
      (entries : List (String × FsNode))

/-- `os.Lstat` on a node: `none` is a failure. -/
def lstat : FsNode → Option FileInfo
  | .file s statFails => if statFails then none else some ⟨s, false, false⟩
  | .symlink s => some ⟨s, false, true⟩
  | .dir ss statFails _ _ => if statFails then none else some ⟨ss, true, false⟩

/-- `os.ReadDir` on a node: `none` is a failure (always, on non-dirs). -/
def readDir : FsNode → Option (List (String × FsNode))
  | .dir _ _ listFails entries => if listFails then none else some entries
  | _ => none

/-- The `IsDir` bit of the `os.DirEntry` record returned by `os.ReadDir`
(type bits from the directory stream, never following symlinks). -/
def isDirNode : FsNode → Bool
  | .dir _ _ _ _ => true
  | _ => false

theorem sizeOf_lt_of_readDir {n : FsNode} {es : List (String × FsNode)}
    (h : readDir n = some es) : sizeOf es < sizeOf n := by
  cases n with
  | file s sf => simp [readDir] at h
  | symlink s => simp [readDir] at h
  | dir ss sf lf entries =>
    cases lf with
    | true => simp [readDir] at h
    | false =>
      simp only [readDir, Bool.false_eq_true, if_false, Option.some.injEq] at h
      subst h
      simp only [FsNode.dir.sizeOf_spec]
      omega

/-- A listing entry that is never reached (the sampling index is always in
range); counts as neither directory nor small. -/
def dummyEntry : String × FsNode :=
  ("", FsNode.file 0 true)

/-- `sampleSize` of `checkSmallFileDirectory` (scan.go:92-95):
at most 20, at most the entry count. -/
def sampleSize (entries : List (String × FsNode)) : Nat :=
  if entries.length < 20 then entries.length else 20

/-- Whether one sampled listing entry is counted by the classifier's
`smallFileCount` (scan.go:101-107): it must not be a directory (by the
listing's `IsDir` bit), its `os.Lstat` must succeed, and the reported
size must be strictly below `IsSmallFileThreshold`. -/
def isSmallSampled (e : String × FsNode) : Bool :=
  !isDirNode e.2 &&
    (match lstat e.2 with
     | some info => decide (info.size < IsSmallFileThreshold)
     | none => false)

/-- The classifier's loop count (scan.go:97-108): over
`i = 0, …, sampleSize-1` it examines the entry at index
`i * entryCount / sampleSize` and counts the small ones. -/
def smallSampledCount (entries : List (String × FsNode)) : Nat :=
  ((List.range (sampleSize entries)).filter
    (fun i => isSmallSampled (entries.getD (i * entries.length / sampleSize entries) dummyEntry))).length

/-- `checkSmallFileDirectory` (scan.go:90-112): small-file-heavy iff the
count of small sampled entries strictly exceeds `sampleSize * 3 / 4`
(integer division).  Entries that are directories or whose stat fails
stay among the `sampleSize` examined entries and count as not small. -/
def checkSmallFileDirectory (entries : List (String × FsNode)) : Bool :=
  smallSampledCount entries > sampleSize entries * 3 / 4

mutual

/-- `Utils.ScanDir` (scan.go:47-87) over the deterministic filesystem.
Stat the path (failure is the only error returned); a non-directory is a
leaf whose size feeds the processed counter; a directory whose listing
fails yields a childless entry of its stat size, the same amount skipped,
and no error; otherwise the listing is dispatched to the batched scanner
(entry count > 100 and the classifier agrees), the parallel scanner
(`maxDepth == 0` or `currentDepth < 2` or entry count > 20), or the
sequential scanner. -/
def scanDir (maxDepth currentDepth : Int) (path : String) (n : FsNode) : ScanRes :=
  let baseName := base path
  match lstat n with
  | none => ⟨⟨path, baseName, 0, []⟩, 0, true, 0⟩
  | some info =>
    if !info.isDir then ⟨⟨path, baseName, info.size, []⟩, 0, false, info.size⟩
    else
      match hr : readDir n with
      | none => ⟨⟨path, baseName, info.size, []⟩, info.size, false, 0⟩
      | some entries =>
        let items := scanChildren maxDepth currentDepth path entries
        if entries.length > 100 ∧ checkSmallFileDirectory entries then
          batchScan path items
        else if maxDepth = 0 ∨ currentDepth < 2 ∨ entries.length > 20 then
          parScan path items
        else
          seqScan path items
termination_by sizeOf n
decreasing_by
  exact sizeOf_lt_of_readDir hr

/-- The per-child environment responses a scanner works from: for each
listed child, its listing record, the parent-level `os.Lstat`, and the
recursive `ScanDir(fullPath, maxDepth, currentDepth+1, …)` result. -/
def scanChildren (maxDepth currentDepth : Int) (path : String) :
    List (String × FsNode) → List Child
  | [] => []
  | (nm, c) :: rest =>
    ⟨nm, isDirNode c, lstat c,
        scanDir maxDepth (currentDepth + 1) (joinPath path nm) c⟩
      :: scanChildren maxDepth currentDepth path rest
termination_by es => sizeOf es
decreasing_by
  · simp only [Prod.mk.sizeOf_spec, List.cons.sizeOf_spec]
    omega
  · simp only [List.cons.sizeOf_spec]
    omega

end

/-! ## Induction principle and result-tree invariants -/

/-- Structural induction over the nested inductive `FsNode`: to prove `P`
everywhere it suffices to handle the two leaves and directories whose
listed children already satisfy `P`. -/
theorem FsNode.strongInd {P : FsNode → Prop}
    (hfile : ∀ s sf, P (.file s sf))
    (hsym : ∀ s, P (.symlink s))
    (hdir : ∀ ss sf lf es, (∀ nm c, (nm, c) ∈ es → P c) → P (.dir ss sf lf es)) :
    ∀ n, P n
  | .file s sf => hfile s sf
  | .symlink s => hsym s
  | .dir ss sf lf es =>
    hdir ss sf lf es (fun _nm c hmem => FsNode.strongInd hfile hsym hdir c)
termination_by n => sizeOf n
decreasing_by
  have h1 : sizeOf (_nm, c) < sizeOf es := List.sizeOf_lt_of_mem hmem
  simp only [Prod.mk.sizeOf_spec] at h1
  simp only [FsNode.dir.sizeOf_spec]
  omega

/-- Size additivity through a whole result tree: every entry with a
non-empty child list has `size` equal to the sum of its children's
sizes. -/
inductive Additive : DirEntry → Prop where
  | mk (e : DirEntry)
      (hsum : e.children ≠ [] → e.size = sumSizes e.children)
      (hrec : ∀ c ∈ e.children, Additive c) : Additive e

/-- Descending order of the `size` fields along consecutive positions. -/
def consecDesc (l : List DirEntry) : Prop :=
  ∀ i : Nat, (h : i + 1 < l.length) →
    (l.get ⟨i + 1, h⟩).size ≤ (l.get ⟨i, Nat.lt_of_succ_lt h⟩).size

/-- Sort invariant through a whole result tree: every entry's children
are in descending size order. -/
inductive SortedTree : DirEntry → Prop where
  | mk (e : DirEntry)
      (hsort : consecDesc e.children)
      (hrec : ∀ c ∈ e.children, SortedTree c) : SortedTree e

theorem additive_leaf {e : DirEntry} (h : e.children = []) : Additive e :=
  .mk e (fun hne => absurd h hne) (fun c hc => by rw [h] at hc; cases hc)

theorem sortedTree_leaf {e : DirEntry} (h : e.children = []) : SortedTree e :=
  .mk e (fun i hi => by rw [h] at hi; cases hi) (fun c hc => by rw [h] at hc; cases hc)

theorem consecDesc_of_sorted {l : List DirEntry} (h : List.Sorted sizeGe l) :
    consecDesc l := by
  intro i hi
  exact h.rel_get_of_lt (by exact Nat.lt_succ_self i)

theorem sumSizes_nil : sumSizes [] = 0 := rfl

theorem sumSizes_cons (x : DirEntry) (l : List DirEntry) :
    sumSizes (x :: l) = x.size + sumSizes l := by
  simp [sumSizes]

theorem sumSizes_append (a b : List DirEntry) :
    sumSizes (a ++ b) = sumSizes a + sumSizes b := by
  simp [sumSizes]

/-! ## Fold invariants for the three scanners -/

theorem seqFold_total_eq (items : List Child) :
    (seqFold items).total = sumSizes (seqFold items).children := by
  induction items with
  | nil => rfl
  | cons it rest ih =>
    obtain ⟨nm, isd, ls, re, rs, rerr, rp⟩ := it
    cases ls with
    | none => simpa [seqFold] using ih
    | some info =>
      obtain ⟨isz, idir, isym⟩ := info
      cases isym with
      | true => simpa [seqFold] using ih
      | false =>
        cases rerr with
        | true => simpa [seqFold] using ih
        | false => simp [seqFold, sumSizes_cons, ih]

theorem seqFold_children_sub {items : List Child} {P : DirEntry → Prop}
    (hP : ∀ it ∈ items, P it.res.entry) :
    ∀ c ∈ (seqFold items).children, P c := by
  induction items with
  | nil => intro c hc; cases hc
  | cons it rest ih =>
    have hrest : ∀ x ∈ rest, P x.res.entry := fun x hx => hP x (List.mem_cons_of_mem _ hx)
    have hhd : P it.res.entry := hP it (List.mem_cons_self _ _)
    obtain ⟨nm, isd, ls, re, rs, rerr, rp⟩ := it
    intro c hc
    cases ls with
    | none =>
      simp only [seqFold] at hc
      exact ih hrest c hc
    | some info =>
      obtain ⟨isz, idir, isym⟩ := info
      cases isym with
      | true =>
        simp only [seqFold, if_true] at hc
        exact ih hrest c hc
      | false =>
        cases rerr with
        | true =>
          simp only [seqFold, Bool.false_eq_true, if_false, if_true] at hc
          exact ih hrest c hc
        | false =>
          simp only [seqFold, Bool.false_eq_true, if_false, List.mem_cons] at hc
          rcases hc with rfl | hc
          · exact hhd
          · exact ih hrest c hc

theorem collectFold_total_eq (items : List Child) :
    (collectFold items).total = sumSizes (collectFold items).children := by
  induction items with
  | nil => rfl
  | cons it rest ih =>
    obtain ⟨nm, isd, ls, re, rs, rerr, rp⟩ := it
    cases rerr with
    | true => simpa [collectFold] using ih
    | false => simp [collectFold, sumSizes_cons, ih]

theorem collectFold_children_sub {items : List Child} {P : DirEntry → Prop}
    (hP : ∀ it ∈ items, P it.res.entry) :
    ∀ c ∈ (collectFold items).children, P c := by
  induction items with
  | nil => intro c hc; cases hc
  | cons it rest ih =>
    have hrest : ∀ x ∈ rest, P x.res.entry := fun x hx => hP x (List.mem_cons_of_mem _ hx)
    have hhd : P it.res.entry := hP it (List.mem_cons_self _ _)
    obtain ⟨nm, isd, ls, re, rs, rerr, rp⟩ := it
    intro c hc
    cases rerr with
    | true =>
      simp only [collectFold, if_true] at hc
      exact ih hrest c hc
    | false =>
      simp only [collectFold, Bool.false_eq_true, if_false, List.mem_cons] at hc
      rcases hc with rfl | hc
      · exact hhd
      · exact ih hrest c hc

theorem batchOne_total_eq (path : String) (b : List Child) :
    (batchOne path b).2.1 = sumSizes (batchOne path b).1 := by
  induction b with
  | nil => rfl
  | cons it rest ih =>
    obtain ⟨nm, isd, ls, re, rs, rerr, rp⟩ := it
    cases ls with
    | none => simpa [batchOne] using ih
    | some info =>
      obtain ⟨isz, idir, isym⟩ := info
      cases isym with
      | true => simpa [batchOne] using ih
      | false => simp [batchOne, sumSizes_cons, ih]

theorem batchOne_children_leaf (path : String) (b : List Child) :
    ∀ c ∈ (batchOne path b).1, c.children = [] := by
  induction b with
  | nil => intro c hc; cases hc
  | cons it rest ih =>
    obtain ⟨nm, isd, ls, re, rs, rerr, rp⟩ := it
    intro c hc
    cases ls with
    | none =>
      simp only [batchOne] at hc
      exact ih c hc
    | some info =>
      obtain ⟨isz, idir, isym⟩ := info
      cases isym with
      | true =>
        simp only [batchOne, if_true] at hc
        exact ih c hc
      | false =>
        simp only [batchOne, Bool.false_eq_true, if_false, List.mem_cons] at hc
        rcases hc with rfl | hc
        · rfl
        · exact ih c hc

theorem batchAll_total_eq (path : String) (bs : List (List Child)) :
    (batchAll path bs).2.1 = sumSizes (batchAll path bs).1 := by
  induction bs with
  | nil => rfl
  | cons b rest ih =>
    simp only [batchAll, sumSizes_append]
    rw [batchOne_total_eq, ih]

theorem batchAll_children_leaf (path : String) (bs : List (List Child)) :
    ∀ c ∈ (batchAll path bs).1, c.children = [] := by
  induction bs with
  | nil => intro c hc; cases hc
  | cons b rest ih =>
    intro c hc
    simp only [batchAll, List.mem_append] at hc
    rcases hc with hc | hc
    · exact batchOne_children_leaf path b c hc
    · exact ih c hc

/-! ## Scanner-level invariants -/

theorem additive_node {e : DirEntry} (hsum : e.size = sumSizes e.children)
    (hrec : ∀ c ∈ e.children, Additive c) : Additive e :=
  .mk e (fun _ => hsum) hrec

theorem sorted_node {e : DirEntry} (hsort : consecDesc e.children)
    (hrec : ∀ c ∈ e.children, SortedTree c) : SortedTree e :=
  .mk e hsort hrec

theorem parQueue_subset {items : List Child} {it : Child} (h : it ∈ parQueue items) :
    it ∈ items := by
  simp only [parQueue, List.mem_append, List.mem_filter] at h
  rcases h with h | h
  · exact h.1.1
  · exact h.1.1

theorem seqScan_entry_additive (p : String) (items : List Child)
    (h : ∀ it ∈ items, Additive it.res.entry) : Additive (seqScan p items).entry := by
  apply additive_node
  · show (seqFold items).total = sumSizes (sortBySizeDesc (seqFold items).children)
    rw [sortBySizeDesc_sumSizes]
    exact seqFold_total_eq items
  · intro c hc
    exact seqFold_children_sub h c (mem_sortBySizeDesc.mp hc)

theorem parScan_entry_additive (p : String) (items : List Child)
    (h : ∀ it ∈ items, Additive it.res.entry) : Additive (parScan p items).entry := by
  by_cases h5 : items.length < 5
  · simp only [parScan, h5, if_true]
    exact seqScan_entry_additive p items h
  · simp only [parScan, h5, if_false]
    apply additive_node
    · show (collectFold (parQueue items)).total
        = sumSizes (sortBySizeDesc (collectFold (parQueue items)).children)
      rw [sortBySizeDesc_sumSizes]
      exact collectFold_total_eq _
    · intro c hc
      refine collectFold_children_sub ?_ c (mem_sortBySizeDesc.mp hc)
      exact fun it hit => h it (parQueue_subset hit)

theorem batchScan_entry_additive (p : String) (items : List Child)
    (h : ∀ it ∈ items, Additive it.res.entry) : Additive (batchScan p items).entry := by
  apply additive_node
  · show (batchAll p (toBatches (items.filter (fun it => !it.isDirEnt)))).2.1
        + (collectFold ((items.filter (fun it => it.isDirEnt)).filter enqueueOK)).total
      = sumSizes (sortBySizeDesc
          ((batchAll p (toBatches (items.filter (fun it => !it.isDirEnt)))).1
            ++ (collectFold ((items.filter (fun it => it.isDirEnt)).filter enqueueOK)).children))
    rw [sortBySizeDesc_sumSizes, sumSizes_append, batchAll_total_eq, collectFold_total_eq]
  · intro c hc
    have hc2 := mem_sortBySizeDesc.mp hc
    rw [List.mem_append] at hc2
    rcases hc2 with hc2 | hc2
    · exact additive_leaf (batchAll_children_leaf _ _ c hc2)
    · refine collectFold_children_sub ?_ c hc2
      intro it hit
      exact h it (List.mem_of_mem_filter (List.mem_of_mem_filter hit))

theorem seqScan_entry_sorted (p : String) (items : List Child)
    (h : ∀ it ∈ items, SortedTree it.res.entry) : SortedTree (seqScan p items).entry := by
  apply sorted_node
  · exact consecDesc_of_sorted (sorted_sortBySizeDesc _)
  · intro c hc
    exact seqFold_children_sub h c (mem_sortBySizeDesc.mp hc)

theorem parScan_entry_sorted (p : String) (items : List Child)
    (h : ∀ it ∈ items, SortedTree it.res.entry) : SortedTree (parScan p items).entry := by
  by_cases h5 : items.length < 5
  · simp only [parScan, h5, if_true]
    exact seqScan_entry_sorted p items h
  · simp only [parScan, h5, if_false]
    apply sorted_node
    · exact consecDesc_of_sorted (sorted_sortBySizeDesc _)
    · intro c hc
      refine collectFold_children_sub ?_ c (mem_sortBySizeDesc.mp hc)
      exact fun it hit => h it (parQueue_subset hit)

theorem batchScan_entry_sorted (p : String) (items : List Child)
    (h : ∀ it ∈ items, SortedTree it.res.entry) : SortedTree (batchScan p items).entry := by
  apply sorted_node
  · exact consecDesc_of_sorted (sorted_sortBySizeDesc _)
  · intro c hc
    have hc2 := mem_sortBySizeDesc.mp hc
    rw [List.mem_append] at hc2
    rcases hc2 with hc2 | hc2
    · exact sortedTree_leaf (batchAll_children_leaf _ _ c hc2)
    · refine collectFold_children_sub ?_ c hc2
      intro it hit
      exact h it (List.mem_of_mem_filter (List.mem_of_mem_filter hit))

/-! ## Unfolding lemmas for `scanDir` -/

theorem scanDir_lstat_none (md cd : Int) (p : String) (n : FsNode)
    (h : lstat n = none) :
    scanDir md cd p n = ⟨⟨p, base p, 0, []⟩, 0, true, 0⟩ := by
  rw [scanDir, h]

theorem scanDir_nonDir {info : FileInfo} (md cd : Int) (p : String) (n : FsNode)
    (h : lstat n = some info) (hd : info.isDir = false) :
    scanDir md cd p n = ⟨⟨p, base p, info.size, []⟩, 0, false, info.size⟩ := by
  rw [scanDir, h]
  simp [hd]

theorem scanDir_listFail {info : FileInfo} (md cd : Int) (p : String) (n : FsNode)
    (h : lstat n = some info) (hd : info.isDir = true) (hr : readDir n = none) :
    scanDir md cd p n = ⟨⟨p, base p, info.size, []⟩, info.size, false, 0⟩ := by
  rw [scanDir, h]
  simp only [hd, Bool.not_true, Bool.false_eq_true, if_false]
  split
  · rfl
  · rename_i es heq
    rw [hr] at heq
    cases heq

theorem scanDir_dispatch {info : FileInfo}
    {entries : List (String × FsNode)} (md cd : Int) (p : String) (n : FsNode)
    (h : lstat n = some info) (hd : info.isDir = true)
    (hr : readDir n = some entries) :
    scanDir md cd p n =
      if entries.length > 100 ∧ checkSmallFileDirectory entries then
        batchScan p (scanChildren md cd p entries)
      else if md = 0 ∨ cd < 2 ∨ entries.length > 20 then
        parScan p (scanChildren md cd p entries)
      else
        seqScan p (scanChildren md cd p entries) := by
  rw [scanDir, h]
  simp only [hd, Bool.not_true, Bool.false_eq_true, if_false]
  split
  · rename_i heq
    rw [hr] at heq
    cases heq
  · rename_i es heq
    rw [hr] at heq
    injection heq with h2
    subst h2
    rfl

theorem mem_scanChildren {md cd : Int} {p : String} :
    ∀ {es : List (String × FsNode)} {it : Child}, it ∈ scanChildren md cd p es →
      ∃ nm c, (nm, c) ∈ es ∧ it.res = scanDir md (cd + 1) (joinPath p nm) c := by
  intro es
  induction es with
  | nil => intro it hit; simp [scanChildren] at hit
  | cons e rest ih =>
    obtain ⟨nm, c⟩ := e
    intro it hit
    rw [scanChildren, List.mem_cons] at hit
    rcases hit with rfl | hit
    · exact ⟨nm, c, List.mem_cons_self _ _, rfl⟩
    · obtain ⟨nm2, c2, hmem, hres⟩ := ih hit
      exact ⟨nm2, c2, List.mem_cons_of_mem _ hmem, hres⟩

/-! ## C1 and C2: tree invariants of every completed scan -/

/-- C1 — Size additivity: in the result tree of any completed `ScanDir`
call, every entry with a non-empty children list has `size` equal to the
sum of its children's sizes; entries dropped on read errors are charged
only to the separate skipped total, never materialised into `size`
(dropped children never enter the `children` list, so they cannot
contribute to the sum `size` equals). -/
theorem scanDir_size_additive (md cd : Int) (p : String) (n : FsNode) :
    Additive (scanDir md cd p n).entry := by
  induction n using FsNode.strongInd generalizing cd p with
  | hfile s sf =>
    cases sf with
    | true =>
      rw [scanDir_lstat_none md cd p (.file s true) rfl]
      exact additive_leaf rfl
    | false =>
      rw [scanDir_nonDir md cd p (.file s false) rfl rfl]
      exact additive_leaf rfl
  | hsym s =>
    rw [scanDir_nonDir md cd p (.symlink s) rfl rfl]
    exact additive_leaf rfl
  | hdir ss sf lf es ih =>
    cases sf with
    | true =>
      rw [scanDir_lstat_none md cd p (.dir ss true lf es) rfl]
      exact additive_leaf rfl
    | false =>
      cases lf with
      | true =>
        rw [scanDir_listFail md cd p (.dir ss false true es) rfl rfl rfl]
        exact additive_leaf rfl
      | false =>
        have hitems : ∀ it ∈ scanChildren md cd p es, Additive it.res.entry := by
          intro it hit
          obtain ⟨nm, c, hmem, hres⟩ := mem_scanChildren hit
          rw [hres]
          exact ih nm c hmem (cd + 1) (joinPath p nm)
        rw [scanDir_dispatch md cd p (.dir ss false false es) rfl rfl rfl]
        split
        · exact batchScan_entry_additive _ _ hitems
        · split
          · exact parScan_entry_additive _ _ hitems
          · exact seqScan_entry_additive _ _ hitems

/-- C2 — Sort invariant: in the result tree of any completed `ScanDir`
call, every entry's children sequence is in descending size order
(`children[i].size ≥ children[i+1].size`), whichever scanner produced
it. -/
theorem scanDir_children_sorted_desc (md cd : Int) (p : String) (n : FsNode) :
    SortedTree (scanDir md cd p n).entry := by
  induction n using FsNode.strongInd generalizing cd p with
  | hfile s sf =>
    cases sf with
    | true =>
      rw [scanDir_lstat_none md cd p (.file s true) rfl]
      exact sortedTree_leaf rfl
    | false =>
      rw [scanDir_nonDir md cd p (.file s false) rfl rfl]
      exact sortedTree_leaf rfl
  | hsym s =>
    rw [scanDir_nonDir md cd p (.symlink s) rfl rfl]
    exact sortedTree_leaf rfl
  | hdir ss sf lf es ih =>
    cases sf with
    | true =>
      rw [scanDir_lstat_none md cd p (.dir ss true lf es) rfl]
      exact sortedTree_leaf rfl
    | false =>
      cases lf with
      | true =>
        rw [scanDir_listFail md cd p (.dir ss false true es) rfl rfl rfl]
        exact sortedTree_leaf rfl
      | false =>
        have hitems : ∀ it ∈ scanChildren md cd p es, SortedTree it.res.entry := by
          intro it hit
          obtain ⟨nm, c, hmem, hres⟩ := mem_scanChildren hit
          rw [hres]
          exact ih nm c hmem (cd + 1) (joinPath p nm)
        rw [scanDir_dispatch md cd p (.dir ss false false es) rfl rfl rfl]
        split
        · exact batchScan_entry_sorted _ _ hitems
        · split
          · exact parScan_entry_sorted _ _ hitems
          · exact seqScan_entry_sorted _ _ hitems

/-! ## Error behaviour of the scanners -/

theorem seqScan_isErr (p : String) (items : List Child) :
    (seqScan p items).isErr = false := rfl

theorem batchScan_isErr (p : String) (items : List Child) :
    (batchScan p items).isErr = false := rfl

theorem parScan_isErr (p : String) (items : List Child) :
    (parScan p items).isErr = false := by
  unfold parScan
  split
  · exact rfl
  · rfl

theorem scanDir_isErr_iff (md cd : Int) (p : String) (n : FsNode) :
    (scanDir md cd p n).isErr = true ↔ lstat n = none := by
  cases n with
  | file s sf =>
    cases sf with
    | true =>
      rw [scanDir_lstat_none md cd p (.file s true) rfl]
      simp [lstat]
    | false =>
      rw [scanDir_nonDir md cd p (.file s false) rfl rfl]
      simp [lstat]
  | symlink s =>
    rw [scanDir_nonDir md cd p (.symlink s) rfl rfl]
    simp [lstat]
  | dir ss sf lf es =>
    cases sf with
    | true =>
      rw [scanDir_lstat_none md cd p (.dir ss true lf es) rfl]
      simp [lstat]
    | false =>
      cases lf with
      | true =>
        rw [scanDir_listFail md cd p (.dir ss false true es) rfl rfl rfl]
        simp [lstat]
      | false =>
        rw [scanDir_dispatch md cd p (.dir ss false false es) rfl rfl rfl]
        constructor
        · intro h
          exfalso
          revert h
          split
          · simp [batchScan_isErr]
          · split
            · simp [parScan_isErr]
            · simp [seqScan_isErr]
        · intro h
          exact absurd h (by simp [lstat])

/-- C4 — `ScanDir` returns an error exactly when the stat of the root path
itself fails; no scanner ever returns an error for child failures; and on
the sequential path an errored child scan adds that child's stat size to
`skipped` while leaving the children and the size total those of the
remaining siblings (scanning continues). -/
theorem scanDir_error_iff_root_stat_fails :
    (∀ (md cd : Int) (p : String) (n : FsNode),
        (scanDir md cd p n).isErr = true ↔ lstat n = none)
    ∧ (∀ (p : String) (items : List Child),
        (seqScan p items).isErr = false ∧ (parScan p items).isErr = false
          ∧ (batchScan p items).isErr = false)
    ∧ (∀ (nm : String) (isd : Bool) (re : DirEntry) (rs rp : Int)
          (rest : List Child) (info : FileInfo), info.isSymlink = false →
        (seqFold (⟨nm, isd, some info, ⟨re, rs, true, rp⟩⟩ :: rest)).children
            = (seqFold rest).children
          ∧ (seqFold (⟨nm, isd, some info, ⟨re, rs, true, rp⟩⟩ :: rest)).total
            = (seqFold rest).total
          ∧ (seqFold (⟨nm, isd, some info, ⟨re, rs, true, rp⟩⟩ :: rest)).skipped
            = info.size + (seqFold rest).skipped) := by
  refine ⟨scanDir_isErr_iff, fun p items => ⟨seqScan_isErr p items, parScan_isErr p items, batchScan_isErr p items⟩, ?_⟩
  intro nm isd re rs rp rest info hs
  obtain ⟨isz, idir, isym⟩ := info
  cases isym with
  | true => simp at hs
  | false => refine ⟨?_, ?_, ?_⟩ <;> simp [seqFold]

/-- Closed instance of `scanDir_error_iff_root_stat_fails`: a child whose
stat reported 4096 bytes and whose recursive scan then errs adds 4096 to
the sequential `skipped` total. -/
theorem scanDir_error_iff_root_stat_fails_witness :
    (seqFold [⟨"gone", false, some ⟨4096, false, false⟩, ⟨⟨"/d/gone", "gone", 0, []⟩, 0, true, 0⟩⟩]).skipped
      = 4096 + (seqFold []).skipped :=
  (scanDir_error_iff_root_stat_fails.2.2 "gone" false ⟨"/d/gone", "gone", 0, []⟩
    0 0 [] ⟨4096, false, false⟩ rfl).2.2

/-! ## C3: a directory whose stat succeeds but whose listing fails -/

/-- C3 counterexample — the claim says the returned entry has `size = 0`;
on the code the entry's size is the directory's own stat size (4096
here), not 0. -/
theorem scanDir_listFail_size_cex :
    (scanDir 1 0 "/data" (.dir 4096 false true [])).isErr = false
      ∧ (scanDir 1 0 "/data" (.dir 4096 false true [])).skipped = 4096
      ∧ ¬ (scanDir 1 0 "/data" (.dir 4096 false true [])).entry.size = 0 := by
  rw [scanDir_listFail 1 0 "/data" (.dir 4096 false true []) rfl rfl rfl]
  refine ⟨rfl, rfl, ?_⟩
  intro h
  exact absurd h (by decide)

/-- C3 (amended) — for a path whose stat succeeds as a directory but whose
entry listing fails, `ScanDir` returns no error, an entry whose `size` is
the directory's own stat size (not 0), and a skipped total equal to that
same stat size. -/
theorem scanDir_listing_failure (md cd : Int) (p : String) (n : FsNode)
    (info : FileInfo) (h : lstat n = some info) (hd : info.isDir = true)
    (hr : readDir n = none) :
    (scanDir md cd p n).isErr = false
      ∧ (scanDir md cd p n).entry.size = info.size
      ∧ (scanDir md cd p n).skipped = info.size := by
  rw [scanDir_listFail md cd p n h hd hr]
  exact ⟨rfl, rfl, rfl⟩

/-- Closed instance of `scanDir_listing_failure` at an unlistable
directory of stat size 4096. -/
theorem scanDir_listing_failure_witness :
    (scanDir 1 0 "/data" (.dir 4096 false true [])).isErr = false
      ∧ (scanDir 1 0 "/data" (.dir 4096 false true [])).entry.size = 4096
      ∧ (scanDir 1 0 "/data" (.dir 4096 false true [])).skipped = 4096 :=
  scanDir_listing_failure 1 0 "/data" (.dir 4096 false true []) ⟨4096, true, false⟩ rfl rfl rfl

/-! ## C6: strategy selection -/

/-- C6 — For a successfully listed directory, `ScanDir` delegates to the
batched small-file scanner exactly when the entry count exceeds 100 and
the classifier agrees; otherwise to the parallel scanner exactly when
`maxDepth = 0` or `currentDepth < 2` or the entry count exceeds 20; and
to the sequential scanner in the remaining cases; the parallel scanner
itself falls back to the sequential scanner on fewer than 5 entries. -/
theorem scanDir_strategy_selection :
    (∀ (md cd : Int) (p : String) (n : FsNode) (info : FileInfo)
        (entries : List (String × FsNode)),
      lstat n = some info → info.isDir = true → readDir n = some entries →
        ((entries.length > 100 ∧ checkSmallFileDirectory entries = true →
            scanDir md cd p n = batchScan p (scanChildren md cd p entries))
          ∧ (¬ (entries.length > 100 ∧ checkSmallFileDirectory entries = true) →
              (md = 0 ∨ cd < 2 ∨ entries.length > 20) →
              scanDir md cd p n = parScan p (scanChildren md cd p entries))
          ∧ (¬ (entries.length > 100 ∧ checkSmallFileDirectory entries = true) →
              ¬ (md = 0 ∨ cd < 2 ∨ entries.length > 20) →
              scanDir md cd p n = seqScan p (scanChildren md cd p entries))))
    ∧ (∀ (p : String) (items : List Child),
        items.length < 5 → parScan p items = seqScan p items) := by
  constructor
  · intro md cd p n info entries h hd hr
    rw [scanDir_dispatch md cd p n h hd hr]
    refine ⟨fun hc => ?_, fun hc1 hc2 => ?_, fun hc1 hc2 => ?_⟩
    · rw [if_pos hc]
    · rw [if_neg hc1, if_pos hc2]
    · rw [if_neg hc1, if_neg hc2]
  · intro p items h5
    unfold parScan
    rw [if_pos h5]

/-- Closed instance of `scanDir_strategy_selection`: at depth 2 with a
positive display depth and an empty listing, the sequential scanner is
chosen. -/
theorem scanDir_strategy_selection_witness :
    scanDir 1 2 "/w" (.dir 0 false false [])
      = seqScan "/w" (scanChildren 1 2 "/w" []) :=
  (scanDir_strategy_selection.1 1 2 "/w" (.dir 0 false false []) ⟨0, true, false⟩
    [] rfl rfl rfl).2.2 (by decide) (by decide)

/-! ## C8: sequential skipped accounting -/

/-- C8 — On the sequential path, a directory holding one file whose stat
reported 4096 bytes but whose recursive scan then fails (the file became
unreadable between the two stats) and one readable 1000-byte file yields
`size = 1000` and `skipped = 4096`. -/
theorem seqScan_skipped_accounting :
    (seqScan "/d"
        [⟨"locked.bin", false, some ⟨4096, false, false⟩,
            scanDir 0 1 "/d/locked.bin" (.file 4096 true)⟩,
          ⟨"ok.txt", false, some ⟨1000, false, false⟩,
            scanDir 0 1 "/d/ok.txt" (.file 1000 false)⟩]).entry.size = 1000
      ∧ (seqScan "/d"
          [⟨"locked.bin", false, some ⟨4096, false, false⟩,
              scanDir 0 1 "/d/locked.bin" (.file 4096 true)⟩,
            ⟨"ok.txt", false, some ⟨1000, false, false⟩,
              scanDir 0 1 "/d/ok.txt" (.file 1000 false)⟩]).skipped = 4096 := by
  rw [scanDir_lstat_none 0 1 "/d/locked.bin" (.file 4096 true) rfl,
    scanDir_nonDir 0 1 "/d/ok.txt" (.file 1000 false) rfl rfl]
  exact ⟨rfl, rfl⟩

/-! ## C7: symlink exclusion -/

theorem enqueueOK_symlink {it : Child} {info : FileInfo}
    (h : it.lstatRes = some info) (hs : info.isSymlink = true) :
    enqueueOK it = false := by
  unfold enqueueOK
  rw [h]
  simp [hs]

theorem filter_middle_false {α : Type} (f : α → Bool) (l1 l2 : List α)
    (a : α) (h : f a = false) :
    (l1 ++ a :: l2).filter f = (l1 ++ l2).filter f := by
  simp [List.filter_append, List.filter_cons, h]

theorem seqFold_symlink_removal {it : Child} {info : FileInfo}
    (h : it.lstatRes = some info) (hs : info.isSymlink = true) :
    ∀ l1 l2 : List Child, seqFold (l1 ++ it :: l2) = seqFold (l1 ++ l2) := by
  intro l1 l2
  induction l1 with
  | nil =>
    simp only [List.nil_append, seqFold]
    rw [h]
    simp [hs]
  | cons x r ih =>
    simp only [List.cons_append, seqFold, List.append_eq]
    rw [ih]

theorem batchOne_symlink_removal {it : Child} {info : FileInfo}
    (h : it.lstatRes = some info) (hs : info.isSymlink = true) (p : String) :
    ∀ l1 l2 : List Child, batchOne p (l1 ++ it :: l2) = batchOne p (l1 ++ l2) := by
  intro l1 l2
  induction l1 with
  | nil =>
    simp only [List.nil_append, batchOne]
    rw [h]
    simp [hs]
  | cons x r ih =>
    simp only [List.cons_append, batchOne, List.append_eq]
    rw [ih]

theorem batchOne_append (p : String) (a b : List Child) :
    batchOne p (a ++ b)
      = ((batchOne p a).1 ++ (batchOne p b).1,
          (batchOne p a).2.1 + (batchOne p b).2.1,
          (batchOne p a).2.2 + (batchOne p b).2.2) := by
  induction a with
  | nil => simp [batchOne]
  | cons x r ih =>
    obtain ⟨nm, isd, ls, re, rs, rerr, rp⟩ := x
    cases ls with
    | none => simpa [batchOne] using ih
    | some info =>
      obtain ⟨isz, idir, isym⟩ := info
      cases isym with
      | true => simpa [batchOne] using ih
      | false => simp [batchOne, ih, add_assoc]

theorem batchAll_toBatches (p : String) :
    ∀ l : List Child, batchAll p (toBatches l) = batchOne p l
  | [] => by simp [toBatches, batchAll, batchOne]
  | it :: rest => by
    rw [toBatches]
    simp only [batchAll]
    rw [batchAll_toBatches p ((it :: rest).drop BatchSize)]
    have happ := batchOne_append p ((it :: rest).take BatchSize) ((it :: rest).drop BatchSize)
    rw [List.take_append_drop] at happ
    rw [happ]
termination_by l => l.length
decreasing_by
  simp only [List.length_drop, List.length_cons, BatchSize]
  omega

theorem parQueue_symlink_removal {it : Child} {info : FileInfo}
    (h : it.lstatRes = some info) (hs : info.isSymlink = true)
    (l1 l2 : List Child) :
    parQueue (l1 ++ it :: l2) = parQueue (l1 ++ l2) := by
  have he := enqueueOK_symlink h hs
  unfold parQueue
  rw [List.filter_filter, List.filter_filter, List.filter_filter, List.filter_filter]
  rw [filter_middle_false _ l1 l2 it (by simp [he]),
    filter_middle_false _ l1 l2 it (by simp [he])]

theorem seqScan_symlink_removal {it : Child} {info : FileInfo}
    (h : it.lstatRes = some info) (hs : info.isSymlink = true)
    (p : String) (l1 l2 : List Child) :
    seqScan p (l1 ++ it :: l2) = seqScan p (l1 ++ l2) := by
  unfold seqScan
  rw [seqFold_symlink_removal h hs l1 l2]

/-- `batchScan` with its `let` bindings expanded (definitional). -/
theorem batchScan_eq (p : String) (items : List Child) :
    batchScan p items =
      ⟨⟨p, base p,
          (batchAll p (toBatches (items.filter (fun x => !x.isDirEnt)))).2.1
            + (collectFold ((items.filter (fun x => x.isDirEnt)).filter enqueueOK)).total,
          sortBySizeDesc
            ((batchAll p (toBatches (items.filter (fun x => !x.isDirEnt)))).1
              ++ (collectFold ((items.filter (fun x => x.isDirEnt)).filter enqueueOK)).children)⟩,
        (collectFold ((items.filter (fun x => x.isDirEnt)).filter enqueueOK)).skipped,
        false,
        (batchAll p (toBatches (items.filter (fun x => !x.isDirEnt)))).2.2
          + (collectFold ((items.filter (fun x => x.isDirEnt)).filter enqueueOK)).processed⟩ :=
  rfl

theorem batchScan_symlink_removal {it : Child} {info : FileInfo}
    (h : it.lstatRes = some info) (hs : info.isSymlink = true)
    (p : String) (l1 l2 : List Child) :
    batchScan p (l1 ++ it :: l2) = batchScan p (l1 ++ l2) := by
  have he := enqueueOK_symlink h hs
  cases hd : it.isDirEnt with
  | true =>
    have hfiles : (l1 ++ it :: l2).filter (fun x => !x.isDirEnt)
        = (l1 ++ l2).filter (fun x => !x.isDirEnt) :=
      filter_middle_false _ l1 l2 it (by simp [hd])
    rw [batchScan_eq, batchScan_eq, hfiles, List.filter_filter, List.filter_filter,
      filter_middle_false _ l1 l2 it (by simp [he])]
  | false =>
    have hdirs : (l1 ++ it :: l2).filter (fun x => x.isDirEnt)
        = (l1 ++ l2).filter (fun x => x.isDirEnt) :=
      filter_middle_false _ l1 l2 it (by simp [hd])
    have hfw : (l1 ++ it :: l2).filter (fun x => !x.isDirEnt)
        = l1.filter (fun x => !x.isDirEnt) ++ it :: l2.filter (fun x => !x.isDirEnt) := by
      simp [List.filter_append, List.filter_cons, hd]
    have hfo : (l1 ++ l2).filter (fun x => !x.isDirEnt)
        = l1.filter (fun x => !x.isDirEnt) ++ l2.filter (fun x => !x.isDirEnt) := by
      simp [List.filter_append]
    rw [batchScan_eq, batchScan_eq, hdirs, hfw, hfo, batchAll_toBatches,
      batchAll_toBatches, batchOne_symlink_removal h hs p]

theorem parScan_symlink_removal {it : Child} {info : FileInfo}
    (h : it.lstatRes = some info) (hs : info.isSymlink = true)
    (p : String) (l1 l2 : List Child) :
    ((l1 ++ it :: l2).length < 5 → parScan p (l1 ++ it :: l2) = parScan p (l1 ++ l2))
    ∧ (¬ (l1 ++ l2).length < 5 → parScan p (l1 ++ it :: l2) = parScan p (l1 ++ l2)) := by
  constructor
  · intro h5
    have h5b : (l1 ++ l2).length < 5 := by
      simp only [List.length_append, List.length_cons] at h5 ⊢
      omega
    unfold parScan
    rw [if_pos h5, if_pos h5b]
    exact seqScan_symlink_removal h hs p l1 l2
  · intro h5
    have h5b : ¬ (l1 ++ it :: l2).length < 5 := by
      simp only [List.length_append, List.length_cons] at h5 ⊢
      omega
    unfold parScan
    rw [if_neg h5b, if_neg h5]
    rw [parQueue_symlink_removal h hs l1 l2]

/-- C7 — Symlink exclusion: a listed child whose non-following stat
reports a symlink contributes nothing anywhere.  The sequential scanner
and the batched scanner return for `l1 ++ [symlink] ++ l2` exactly what
they return for `l1 ++ l2` (zero to size, zero to skipped, absent from
the children, and the recursion result for the symlink is never
consulted, so a self-loop cannot affect or hang the scan); the parallel
scanner never enqueues it (`parQueue` is unchanged), and its result is
likewise unchanged whenever the symlink does not flip the
fewer-than-5-entries fallback. -/
theorem symlink_exclusion (p : String) (l1 l2 : List Child) (it : Child)
    (info : FileInfo) (h : it.lstatRes = some info)
    (hs : info.isSymlink = true) :
    seqScan p (l1 ++ it :: l2) = seqScan p (l1 ++ l2)
      ∧ batchScan p (l1 ++ it :: l2) = batchScan p (l1 ++ l2)
      ∧ parQueue (l1 ++ it :: l2) = parQueue (l1 ++ l2)
      ∧ ((l1 ++ it :: l2).length < 5 →
          parScan p (l1 ++ it :: l2) = parScan p (l1 ++ l2))
      ∧ (¬ (l1 ++ l2).length < 5 →
          parScan p (l1 ++ it :: l2) = parScan p (l1 ++ l2)) :=
  ⟨seqScan_symlink_removal h hs p l1 l2,
    batchScan_symlink_removal h hs p l1 l2,
    parQueue_symlink_removal h hs l1 l2,
    (parScan_symlink_removal h hs p l1 l2).1,
    (parScan_symlink_removal h hs p l1 l2).2⟩

/-- Closed instance of `symlink_exclusion`: a directory containing only a
symlink scans exactly like an empty one. -/
theorem symlink_exclusion_witness :
    seqScan "/s" ([] ++ (⟨"ln", false, some ⟨9, false, true⟩,
        ⟨⟨"", "", 0, []⟩, 0, false, 0⟩⟩ : Child) :: []) = seqScan "/s" ([] ++ []) :=
  (symlink_exclusion "/s" [] [] ⟨"ln", false, some ⟨9, false, true⟩,
    ⟨⟨"", "", 0, []⟩, 0, false, 0⟩⟩ ⟨9, false, true⟩ rfl rfl).1

/-! ## C5: the small-file classifier -/

/-- The classifier as the specification words it: among the examined
entries, those that fail to stat are *excluded from the sample* (neither
small nor large), and the directory is small-file-heavy iff strictly more
than 75% of the remaining sampled entries are small.  Stated only to be
compared against `checkSmallFileDirectory`, which is translated from the
code. -/
def checkSmallFileDirectorySpec (entries : List (String × FsNode)) : Bool :=
  let sampled := (List.range (sampleSize entries)).map
    (fun i => entries.getD (i * entries.length / sampleSize entries) dummyEntry)
  let retained := sampled.filter
    (fun e => !(!isDirNode e.2 && (lstat e.2).isNone))
  4 * (retained.filter isSmallSampled).length > 3 * retained.length

/-- A 101-entry directory whose 20 sampled indices hold 8 files that fail
to stat and 12 small files (every unsampled entry is a small file). -/
def cexEntries : List (String × FsNode) :=
  (List.replicate 8 (("x", FsNode.file 0 true) :: List.replicate 4 ("s", FsNode.file 100 false))).flatten
    ++ List.replicate 61 ("s", FsNode.file 100 false)

/-- C5 counterexample — the code keeps stat-failing entries in the sample
denominator (counting them as not small), so with 12 small of 20 sampled
(8 failing to stat) it does *not* classify the directory small-file-heavy,
while the claim's reading (stat failures excluded from the sample, 12 of
12 small) classifies it heavy. -/
theorem checkSmallFileDirectory_exclusion_cex :
    cexEntries.length = 101
      ∧ checkSmallFileDirectory cexEntries = false
      ∧ checkSmallFileDirectorySpec cexEntries = true := by
  refine ⟨?_, ?_, ?_⟩ <;> decide

/-- C5 (amended) — for a listing of more than 100 entries the classifier
examines `sampleSize = 20` entries at indices `i * entryCount / 20`,
counts one as small exactly when it is a non-directory whose stat succeeds
with size strictly below 32 KiB, and classifies the directory
small-file-heavy iff strictly more than 75% of the 20 examined entries
are small (`smallCount > 15`); entries that fail to stat, like
directories, remain among the 20 examined and count as not small. -/
theorem checkSmallFileDirectory_threshold (entries : List (String × FsNode))
    (h : entries.length > 100) :
    sampleSize entries = 20
      ∧ (checkSmallFileDirectory entries = true
          ↔ 4 * smallSampledCount entries > 60) := by
  have h20 : sampleSize entries = 20 := by
    unfold sampleSize
    rw [if_neg]
    omega
  refine ⟨h20, ?_⟩
  unfold checkSmallFileDirectory
  rw [h20]
  simp only [decide_eq_true_eq]
  omega

/-- Closed instance of `checkSmallFileDirectory_threshold` at the
101-entry counterexample listing. -/
theorem checkSmallFileDirectory_threshold_witness :
    sampleSize cexEntries = 20
      ∧ (checkSmallFileDirectory cexEntries = true
          ↔ 4 * smallSampledCount cexEntries > 60) :=
  checkSmallFileDirectory_threshold cexEntries (by decide)

/-! ## C9: the cancellation slot (`app/app.go`) -/

/-- The non-blocking try-send on the single-slot channel
`scanCancel = make(chan bool, 1)` (app.go:206-211 and 252-257): if a
signal is already pending the send is a no-op, otherwise the slot fills.
`true` means a cancel signal is pending. -/
def trySendCancel (c : Bool) : Bool :=
  if c then c else true

/-- The non-blocking try-receive drain (app.go:261-266): an existing
signal is consumed, an empty slot is left as is. -/
def tryDrainCancel (c : Bool) : Bool :=
  if c then false else c

/-- The mutable state `cancelScan` and `addChildren` touch: the
cancellation slot and the `isScanning` flag. -/
structure AppState where
  scanCancel : Bool
  isScanning : Bool

/-- `cancelScan` (app.go:201-218): under the mutex, if a scan is running,
try-send a cancel signal and clear `isScanning`; otherwise do nothing. -/
def cancelScan (st : AppState) : AppState :=
  if st.isScanning then ⟨trySendCancel st.scanCancel, false⟩ else st

/-- The prologue of `addChildren` (app.go:249-269): if a scan is running,
try-send a cancel; then drain the slot; then mark scanning. -/
def addChildrenStart (st : AppState) : AppState :=
  let c1 := if st.isScanning then trySendCancel st.scanCancel else st.scanCancel
  ⟨tryDrainCancel c1, true⟩

/-- C9 — Cancellation idempotence: from any slot state, two unobserved
try-sends leave the slot as one does (and `cancelScan` as a whole is
idempotent on the full state); the try-receive reset on an already-empty
slot leaves the slot unchanged. -/
theorem cancel_idempotent_reset_noop :
    (∀ c : Bool, trySendCancel (trySendCancel c) = trySendCancel c)
    ∧ (∀ st : AppState, cancelScan (cancelScan st) = cancelScan st)
    ∧ tryDrainCancel false = false := by
  refine ⟨?_, ?_, rfl⟩
  · intro c
    cases c <;> rfl
  · intro st
    obtain ⟨c, sc⟩ := st
    cases sc <;> cases c <;> rfl

/-! ## C10: the caching layer (`CachedScanDir`, package `cache`) -/

/-- `cache.DirEntry`: the cache's own tree type, structurally identical
to `Utils.DirEntry`. -/
structure CacheDirEntry where
  path : String
  name : String
  size : Int
  children : List CacheDirEntry

theorem sizeOf_lt_of_mem_cache {c : CacheDirEntry} {cs : List CacheDirEntry}
    (h : c ∈ cs) : sizeOf c < sizeOf cs :=
  List.sizeOf_lt_of_mem h

/-- `ToUtilsDirEntry` (cache package): field-for-field conversion,
recursing into children. -/
def toUtilsDirEntry : CacheDirEntry → DirEntry
  | ⟨p, nm, s, cs⟩ =>
    ⟨p, nm, s, cs.attach.map (fun c => toUtilsDirEntry c.1)⟩
termination_by e => sizeOf e
decreasing_by
  have h1 := sizeOf_lt_of_mem_cache c.2
  simp only [CacheDirEntry.mk.sizeOf_spec]
  omega

/-- `FromUtilsDirEntry` (cache package): the inverse conversion. -/
def fromUtilsDirEntry : DirEntry → CacheDirEntry
  | ⟨p, nm, s, cs⟩ =>
    ⟨p, nm, s, cs.attach.map (fun c => fromUtilsDirEntry c.1)⟩
termination_by e => sizeOf e
decreasing_by
  have h1 : sizeOf c.1 < sizeOf cs := List.sizeOf_lt_of_mem c.2
  simp only [DirEntry.mk.sizeOf_spec]
  omega

theorem toUtilsDirEntry_size (ce : CacheDirEntry) :
    (toUtilsDirEntry ce).size = ce.size := by
  obtain ⟨p, nm, s, cs⟩ := ce
  rw [toUtilsDirEntry]

/-- The cache map (`DirSizeCache.cache`), modelled as an association list
where `Set` prepends (latest binding wins on lookup, as for a Go map). -/
def cacheGet (cache : List (String × CacheDirEntry)) (p : String) :
    Option CacheDirEntry :=
  match cache.find? (fun kv => kv.1 == p) with
  | some kv => some kv.2
  | none => none

/-- `CachedScanDir` (cache package, scan caching layer): on a cache hit,
convert the cached subtree with `ToUtilsDirEntry`, add its size to the
processed counter (the `processed` field of the result), and return it
with `skipped = 0` and no error, without touching the filesystem; on a
miss, run `ScanDir` and, if it did not err, store the converted result. -/
def cachedScanDir (md cd : Int) (p : String)
    (cache : List (String × CacheDirEntry)) (fs : FsNode) :
    ScanRes × List (String × CacheDirEntry) :=
  match cacheGet cache p with
  | some ce =>
    let utilsEntry := toUtilsDirEntry ce
    (⟨utilsEntry, 0, false, utilsEntry.size⟩, cache)
  | none =>
    let r := scanDir md cd p fs
    (r, if r.isErr then cache else (p, fromUtilsDirEntry r.entry) :: cache)

/-- C10 — Cache-hit postcondition: when the path is cached,
`CachedScanDir` returns the cached subtree converted by
`ToUtilsDirEntry`, with `skipped = 0` and no error, adds exactly the
cached entry's size to the processed counter, leaves the cache unchanged,
and performs no filesystem traversal (the result is the same for every
filesystem). -/
theorem cachedScanDir_cache_hit (md cd : Int) (p : String)
    (cache : List (String × CacheDirEntry)) (fs fs2 : FsNode)
    (ce : CacheDirEntry) (h : cacheGet cache p = some ce) :
    cachedScanDir md cd p cache fs = cachedScanDir md cd p cache fs2
      ∧ (cachedScanDir md cd p cache fs).1.entry = toUtilsDirEntry ce
      ∧ (cachedScanDir md cd p cache fs).1.skipped = 0
      ∧ (cachedScanDir md cd p cache fs).1.isErr = false
      ∧ (cachedScanDir md cd p cache fs).1.processed = ce.size
      ∧ (cachedScanDir md cd p cache fs).2 = cache := by
  simp only [cachedScanDir, h]
  exact ⟨trivial, trivial, trivial, trivial, toUtilsDirEntry_size ce, trivial⟩

/-- Closed instance of `cachedScanDir_cache_hit` on a one-entry cache and
two different filesystems. -/
theorem cachedScanDir_cache_hit_witness :
    cachedScanDir 1 0 "a" [("a", ⟨"a", "a", 7, []⟩)] (.file 1 false)
        = cachedScanDir 1 0 "a" [("a", ⟨"a", "a", 7, []⟩)] (.file 2 false)
      ∧ (cachedScanDir 1 0 "a" [("a", ⟨"a", "a", 7, []⟩)] (.file 1 false)).1.entry
        = toUtilsDirEntry ⟨"a", "a", 7, []⟩
      ∧ (cachedScanDir 1 0 "a" [("a", ⟨"a", "a", 7, []⟩)] (.file 1 false)).1.skipped = 0
      ∧ (cachedScanDir 1 0 "a" [("a", ⟨"a", "a", 7, []⟩)] (.file 1 false)).1.isErr = false
      ∧ (cachedScanDir 1 0 "a" [("a", ⟨"a", "a", 7, []⟩)] (.file 1 false)).1.processed = 7
      ∧ (cachedScanDir 1 0 "a" [("a", ⟨"a", "a", 7, []⟩)] (.file 1 false)).2
        = [("a", ⟨"a", "a", 7, []⟩)] :=
  cachedScanDir_cache_hit 1 0 "a" [("a", ⟨"a", "a", 7, []⟩)]
    (.file 1 false) (.file 2 false) ⟨"a", "a", 7, []⟩ rfl

end DiskSizer
